import Mathlib

set_option autoImplicit false

/-!
Verification of the cache/report-builder core of the github-org-analyser
repository, shallowly embedded from the TypeScript/JavaScript sources.

Time is modelled as epoch milliseconds (`Nat`), `localStorage` as an
association list from keys to stored values, and the JSON round-trip of a
stored cache object as an inductive that is either a well-formed entry or a
value that fails to parse.
-/

/-- The `CACHE_PREFIX` constant of `src/utils/cache.ts` (renamed). -/
def cachePrefixVal : String := "github-org-analyser"

/-- `getCacheKey` from `src/utils/cache.ts`: the template literal
`${CACHE_PREFIX}-${orgName}-${dataType}`. -/
def getCacheKey (orgName dataType : String) : String :=
  cachePrefixVal ++ "-" ++ orgName ++ "-" ++ dataType

/-- A value held in `localStorage` under a cache key, as seen through
`JSON.parse`: either a well-formed cache object `{data, timestamp, expiresAt}`
(`entry`), or a string on which `JSON.parse` throws (`malformed`). -/
inductive StoredVal (α : Type) where
  | malformed
  | entry (data : α) (timestamp : Nat) (expiresAt : Nat)
deriving DecidableEq

/-- `localStorage`, restricted to what the cache utility observes:
an association list from string keys to stored values. -/
abbrev Store (α : Type) : Type := List (String × StoredVal α)

/-- `localStorage.getItem`: the value for the first matching key, if any. -/
def getItem {α : Type} (s : Store α) (k : String) : Option (StoredVal α) :=
  match s with
  | [] => none
  | (k2, v) :: rest => if k2 = k then some v else getItem rest k

/-- `localStorage.setItem`: replace the value under `k`, or append. -/
def setItem {α : Type} (s : Store α) (k : String) (v : StoredVal α) : Store α :=
  match s with
  | [] => [(k, v)]
  | (k2, v2) :: rest => if k2 = k then (k, v) :: rest else (k2, v2) :: setItem rest k v

/-- `localStorage.removeItem`: drop every binding of `k`. -/
def removeItem {α : Type} (s : Store α) (k : String) : Store α :=
  s.filter (fun p => !(p.1 == k))

/-- `saveToCache` from `src/utils/cache.ts` (success path; the
`QuotaExceededError` branch concerns the storage engine, which this model
does not bound): stores `{data, timestamp: now, expiresAt: now + ttlHours*60*60*1000}`
under `getCacheKey orgName dataType`. -/
def saveToCache {α : Type} (s : Store α) (now : Nat) (orgName dataType : String)
    (data : α) (ttlHours : Nat) : Store α :=
  setItem s (getCacheKey orgName dataType)
    (StoredVal.entry data now (now + ttlHours * 60 * 60 * 1000))

/-- `loadFromCache` from `src/utils/cache.ts`. Returns the loaded payload (or
`none`) together with the storage state afterwards. An absent key returns
`none`; a value on which `JSON.parse` throws lands in the `catch` block, which
logs and returns `none` leaving the store untouched; an entry with
`now > expiresAt` is removed and `none` is returned; otherwise the payload is
returned. -/
def loadFromCache {α : Type} (s : Store α) (now : Nat) (orgName dataType : String) :
    Option α × Store α :=
  let key := getCacheKey orgName dataType
  match getItem s key with
  | none => (none, s)
  | some StoredVal.malformed => (none, s)
  | some (StoredVal.entry d _ exp) =>
      if now > exp then (none, removeItem s key) else (some d, s)

/-- Helper for splitting a character list at a separator character that occurs
in neither prefix part: the decomposition is unique. -/
theorem sep_split_inj : ∀ (l1 l2 m1 m2 : List Char), '-' ∉ l1 → '-' ∉ l2 →
    l1 ++ '-' :: m1 = l2 ++ '-' :: m2 → l1 = l2 ∧ m1 = m2 := by
  intro l1
  induction l1 with
  | nil =>
    intro l2 m1 m2 _ h2 h
    cases l2 with
    | nil =>
      simp only [List.nil_append] at h
      exact ⟨rfl, (List.cons.injEq _ _ _ _ ▸ h).2⟩
    | cons c t =>
      simp only [List.nil_append, List.cons_append] at h
      have hc : '-' = c := (List.cons.injEq _ _ _ _ ▸ h).1
      exact absurd (hc ▸ List.mem_cons_self c t) h2
  | cons c t ih =>
    intro l2 m1 m2 h1 h2 h
    cases l2 with
    | nil =>
      simp only [List.cons_append, List.nil_append] at h
      have hc : c = '-' := (List.cons.injEq _ _ _ _ ▸ h).1
      exact absurd (hc ▸ List.mem_cons_self c t) h1
    | cons c2 t2 =>
      simp only [List.cons_append] at h
      have hc : c = c2 := (List.cons.injEq _ _ _ _ ▸ h).1
      have hrest : t ++ '-' :: m1 = t2 ++ '-' :: m2 := (List.cons.injEq _ _ _ _ ▸ h).2
      have h1t : '-' ∉ t := fun hm => h1 (List.mem_cons_of_mem _ hm)
      have h2t : '-' ∉ t2 := fun hm => h2 (List.mem_cons_of_mem _ hm)
      obtain ⟨hl, hm⟩ := ih t2 m1 m2 h1t h2t hrest
      exact ⟨by rw [hc, hl], hm⟩

/-- Claim C1 (counterexample): `getCacheKey` is not injective on all
`(org, reportType)` pairs — an organisation name containing a hyphen collides
with a shifted split of the same characters. -/
theorem getCacheKey_collision :
    getCacheKey "a-b" "c" = getCacheKey "a" "b-c" ∧
      (("a-b", "c") : String × String) ≠ ("a", "b-c") := by
  constructor
  · rfl
  · decide

/-- Claim C1 (amended): `getCacheKey` is a pure function of its two arguments
(the same pair always yields the same key, which holds definitionally in this
embedding), and it is injective on pairs whose organisation name contains no
hyphen; distinct pairs can share a key only when an organisation name contains
a `-`. -/
theorem getCacheKey_inj_of_no_hyphen (o1 t1 o2 t2 : String)
    (h1 : '-' ∉ o1.data) (h2 : '-' ∉ o2.data)
    (h : getCacheKey o1 t1 = getCacheKey o2 t2) : o1 = o2 ∧ t1 = t2 := by
  have hd : (getCacheKey o1 t1).data = (getCacheKey o2 t2).data := congrArg String.data h
  simp only [getCacheKey, String.data_append] at hd
  simp only [List.append_assoc, List.singleton_append] at hd
  have hd2 : o1.data ++ '-' :: t1.data = o2.data ++ '-' :: t2.data := by
    have := List.append_cancel_left hd
    exact (List.cons.injEq _ _ _ _ ▸ this).2
  obtain ⟨ho, ht⟩ := sep_split_inj o1.data o2.data t1.data t2.data h1 h2 hd2
  exact ⟨String.ext ho, String.ext ht⟩

/-- Witness for `getCacheKey_inj_of_no_hyphen` at concrete hyphen-free inputs. -/
theorem getCacheKey_inj_of_no_hyphen_witness : ("myorg" : String) = "myorg" ∧ ("cleanup" : String) = "cleanup" :=
  getCacheKey_inj_of_no_hyphen "myorg" "cleanup" "myorg" "cleanup" (by decide) (by decide) rfl

/-- Reading a key right after writing it yields the written value. -/
theorem getItem_setItem {α : Type} (s : Store α) (k : String) (v : StoredVal α) :
    getItem (setItem s k v) k = some v := by
  induction s with
  | nil => simp [setItem, getItem]
  | cons p rest ih =>
    by_cases hk : p.1 = k
    · simp [setItem, hk, getItem]
    · simp [setItem, hk, getItem, ih]

/-- Claim C2 (counterexample): on a stored value that fails to parse,
`loadFromCache` returns `none` but leaves the corrupt entry in storage — the
post-state still binds the key to the malformed value, so the bad entry is not
removed as claimed. -/
theorem loadFromCache_malformed_keeps_entry :
    loadFromCache [(getCacheKey "o" "t", (StoredVal.malformed : StoredVal Nat))] 5 "o" "t"
        = (none, [(getCacheKey "o" "t", StoredVal.malformed)]) ∧
      getItem [(getCacheKey "o" "t", (StoredVal.malformed : StoredVal Nat))] (getCacheKey "o" "t")
        = some StoredVal.malformed := by
  exact ⟨rfl, rfl⟩

/-- Claim C2 (amended): for every org and reportType, `loadFromCache` returns
`none` when the entry is absent, when the stored value fails to parse (in which
case the store is left unchanged — the bad entry is NOT removed), or when
`now > expiresAt` (in which case the expired entry is removed); otherwise it
returns the stored payload and leaves the store unchanged. -/
theorem loadFromCache_spec {α : Type} (s : Store α) (now : Nat) (orgName dataType : String) :
    (getItem s (getCacheKey orgName dataType) = none →
        loadFromCache s now orgName dataType = (none, s))
  ∧ (getItem s (getCacheKey orgName dataType) = some StoredVal.malformed →
        loadFromCache s now orgName dataType = (none, s))
  ∧ (∀ (d : α) (ts exp : Nat), getItem s (getCacheKey orgName dataType) = some (StoredVal.entry d ts exp) →
        now > exp →
        loadFromCache s now orgName dataType = (none, removeItem s (getCacheKey orgName dataType)))
  ∧ (∀ (d : α) (ts exp : Nat), getItem s (getCacheKey orgName dataType) = some (StoredVal.entry d ts exp) →
        ¬ now > exp →
        loadFromCache s now orgName dataType = (some d, s)) := by
  refine ⟨?_, ?_, ?_, ?_⟩
  · intro h
    simp [loadFromCache, h]
  · intro h
    simp [loadFromCache, h]
  · intro d ts exp h hexp
    simp [loadFromCache, h, hexp]
  · intro d ts exp h hexp
    simp [loadFromCache, h, hexp]

/-- Witness for `loadFromCache_spec`: an expired concrete entry is reported as
a miss and removed. -/
theorem loadFromCache_spec_witness :
    loadFromCache [(getCacheKey "o" "t", StoredVal.entry (37 : Nat) 0 10)] 11 "o" "t"
      = (none, removeItem [(getCacheKey "o" "t", StoredVal.entry (37 : Nat) 0 10)] (getCacheKey "o" "t")) :=
  (loadFromCache_spec [(getCacheKey "o" "t", StoredVal.entry (37 : Nat) 0 10)] 11 "o" "t").2.2.1
    37 0 10 rfl (by decide)

/-- Claim C3: `saveToCache` immediately followed by `loadFromCache` at any time
not past the entry's expiry returns exactly the stored payload (and leaves the
store as written), and the stored entry carries
`expiresAt = now + ttlHours*60*60*1000` and `timestamp = now`. -/
theorem saveToCache_loadFromCache_roundtrip {α : Type} (s : Store α) (now : Nat)
    (orgName dataType : String) (data : α) (ttlHours : Nat) (now2 : Nat)
    (h : now2 ≤ now + ttlHours * 60 * 60 * 1000) :
    loadFromCache (saveToCache s now orgName dataType data ttlHours) now2 orgName dataType
        = (some data, saveToCache s now orgName dataType data ttlHours)
      ∧ getItem (saveToCache s now orgName dataType data ttlHours) (getCacheKey orgName dataType)
        = some (StoredVal.entry data now (now + ttlHours * 60 * 60 * 1000)) := by
  have hget : getItem (saveToCache s now orgName dataType data ttlHours) (getCacheKey orgName dataType)
      = some (StoredVal.entry data now (now + ttlHours * 60 * 60 * 1000)) :=
    getItem_setItem s (getCacheKey orgName dataType) _
  refine ⟨?_, hget⟩
  have hexp : ¬ now2 > now + ttlHours * 60 * 60 * 1000 := not_lt.mpr h
  simp [loadFromCache, hget, hexp]

/-- Witness for `saveToCache_loadFromCache_roundtrip` at a concrete store,
payload and time. -/
theorem saveToCache_loadFromCache_roundtrip_witness :
    loadFromCache (saveToCache ([] : Store Nat) 1000 "myorg" "cleanup" 42 2) 5000 "myorg" "cleanup"
        = (some 42, saveToCache ([] : Store Nat) 1000 "myorg" "cleanup" 42 2)
      ∧ getItem (saveToCache ([] : Store Nat) 1000 "myorg" "cleanup" 42 2) (getCacheKey "myorg" "cleanup")
        = some (StoredVal.entry 42 1000 (1000 + 2 * 60 * 60 * 1000)) :=
  saveToCache_loadFromCache_roundtrip [] 1000 "myorg" "cleanup" 42 2 5000 (by decide)

/-- The per-entry removal test of `clearExpiredCaches` in `src/utils/cache.ts`:
a namespaced entry is marked for removal when `JSON.parse` throws on it (the
inner `catch` pushes the key) or when `now > expiresAt`. -/
def shouldRemoveVal {α : Type} (now : Nat) (v : StoredVal α) : Bool :=
  match v with
  | StoredVal.malformed => true
  | StoredVal.entry _ _ exp => decide (now > exp)

/-- `clearExpiredCaches` from `src/utils/cache.ts`: scan all keys, collect
those starting with the cache namespace whose value is expired or fails to
parse, then remove the collected keys. The whole body is wrapped in
`try/catch`, so the operation never throws to its caller; the model is a total
function accordingly. -/
def clearExpiredCaches {α : Type} (s : Store α) (now : Nat) : Store α :=
  let keysToRemove :=
    (s.filter (fun p => p.1.startsWith cachePrefixVal && shouldRemoveVal now p.2)).map Prod.fst
  keysToRemove.foldl (fun acc k => removeItem acc k) s

/-- Membership after `removeItem`. -/
theorem mem_removeItem {α : Type} (s : Store α) (k2 k : String) (v : StoredVal α) :
    (k, v) ∈ removeItem s k2 ↔ (k, v) ∈ s ∧ k ≠ k2 := by
  simp [removeItem, List.mem_filter]

/-- Membership after folding `removeItem` over a list of keys. -/
theorem mem_foldl_removeItem {α : Type} :
    ∀ (keys : List String) (s : Store α) (k : String) (v : StoredVal α),
      (k, v) ∈ keys.foldl (fun acc k2 => removeItem acc k2) s ↔ (k, v) ∈ s ∧ k ∉ keys := by
  intro keys
  induction keys with
  | nil => intro s k v; simp
  | cons k0 rest ih =>
    intro s k v
    simp only [List.foldl_cons]
    rw [ih, mem_removeItem]
    constructor
    · rintro ⟨⟨hs, hne⟩, hnin⟩
      exact ⟨hs, by simp [hne, hnin]⟩
    · rintro ⟨hs, hnin⟩
      simp only [List.mem_cons, not_or] at hnin
      exact ⟨⟨hs, hnin.1⟩, hnin.2⟩

/-- In a store whose keys are distinct (the `localStorage` invariant), a key
determines its stored value. -/
theorem assoc_nodup_val_eq {α : Type} :
    ∀ (s : Store α), (s.map Prod.fst).Nodup →
      ∀ (k : String) (v v2 : StoredVal α), (k, v) ∈ s → (k, v2) ∈ s → v = v2 := by
  intro s
  induction s with
  | nil => intro _ k v v2 h1 _; simp at h1
  | cons p rest ih =>
    intro hnd k v v2 h1 h2
    simp only [List.map_cons, List.nodup_cons] at hnd
    obtain ⟨hhead, htail⟩ := hnd
    rcases List.mem_cons.mp h1 with h1a | h1b
    · rcases List.mem_cons.mp h2 with h2a | h2b
      · have : (k, v) = (k, v2) := h1a.trans h2a.symm
        exact ((Prod.mk.injEq _ _ _ _ ▸ this)).2
      · exfalso
        apply hhead
        have : p.1 = k := by rw [← h1a]
        rw [this]
        exact List.mem_map.mpr ⟨(k, v2), h2b, rfl⟩
    · rcases List.mem_cons.mp h2 with h2a | h2b
      · exfalso
        apply hhead
        have : p.1 = k := by rw [← h2a]
        rw [this]
        exact List.mem_map.mpr ⟨(k, v), h1b, rfl⟩
      · exact ih htail k v v2 h1b h2b

/-- Claim C9: assuming the `localStorage` invariant of distinct keys, the sweep
`clearExpiredCaches` keeps exactly the entries that are NOT (namespaced and
(malformed or past expiry)): it deletes every namespaced entry with
`now > expiresAt` and every namespaced entry whose value fails to parse, and
nothing else. -/
theorem clearExpiredCaches_spec {α : Type} (s : Store α) (now : Nat)
    (hnodup : (s.map Prod.fst).Nodup) (k : String) (v : StoredVal α) :
    (k, v) ∈ clearExpiredCaches s now ↔
      (k, v) ∈ s ∧ ¬(k.startsWith cachePrefixVal = true ∧ shouldRemoveVal now v = true) := by
  simp only [clearExpiredCaches]
  rw [mem_foldl_removeItem]
  constructor
  · rintro ⟨hs, hnin⟩
    refine ⟨hs, ?_⟩
    rintro ⟨hpre, hrem⟩
    apply hnin
    refine List.mem_map.mpr ⟨(k, v), List.mem_filter.mpr ⟨hs, ?_⟩, rfl⟩
    simp [hpre, hrem]
  · rintro ⟨hs, hnot⟩
    refine ⟨hs, ?_⟩
    intro hin
    rcases List.mem_map.mp hin with ⟨p, hpmem, hpk⟩
    rcases List.mem_filter.mp hpmem with ⟨hpmem2, hq⟩
    have hp : p = (k, p.2) := by
      rw [← hpk]
    rw [hp] at hpmem2 hq
    have hveq : p.2 = v := assoc_nodup_val_eq s hnodup k p.2 v hpmem2 hs
    rw [hveq] at hq
    simp only [Bool.and_eq_true] at hq
    exact hnot ⟨hq.1, hq.2⟩

/-- Witness for `clearExpiredCaches_spec` on a concrete four-entry store
(one live namespaced entry, one expired, one malformed, one foreign key). -/
theorem clearExpiredCaches_spec_witness :
    (("github-org-analyser-o-live", StoredVal.entry (1 : Nat) 0 100) ∈
        clearExpiredCaches
          [("github-org-analyser-o-live", StoredVal.entry (1 : Nat) 0 100),
           ("github-org-analyser-o-exp", StoredVal.entry 2 0 3),
           ("github-org-analyser-o-bad", StoredVal.malformed),
           ("other-key", StoredVal.entry 3 0 3)] 5) ↔
      (("github-org-analyser-o-live", StoredVal.entry (1 : Nat) 0 100) ∈
          ([("github-org-analyser-o-live", StoredVal.entry (1 : Nat) 0 100),
            ("github-org-analyser-o-exp", StoredVal.entry 2 0 3),
            ("github-org-analyser-o-bad", StoredVal.malformed),
            ("other-key", StoredVal.entry 3 0 3)] : Store Nat) ∧
        ¬(("github-org-analyser-o-live".startsWith cachePrefixVal) = true ∧
            shouldRemoveVal 5 (StoredVal.entry (1 : Nat) 0 100) = true)) :=
  clearExpiredCaches_spec
    [("github-org-analyser-o-live", StoredVal.entry (1 : Nat) 0 100),
     ("github-org-analyser-o-exp", StoredVal.entry 2 0 3),
     ("github-org-analyser-o-bad", StoredVal.malformed),
     ("other-key", StoredVal.entry 3 0 3)] 5 (by decide) _ _

/-- The outcome of one `GitHubApiService.get` call in
`src/services/githubApi.ts`: either the parsed body, or a thrown
`GitHubApiError` whose `status` field is the HTTP status when the response
completed with `!response.ok` and absent when `fetch` itself threw. -/
inductive FetchResult (α : Type) where
  | success (body : α)
  | failure (status : Option Nat)
deriving DecidableEq

/-- `isBranchProtected` from `src/services/githubApi.ts`, as a function of the
outcome of its single `get` call: a 200-class response means protected; a
caught error with `status === 404` means not protected; any other caught error
is re-thrown (modelled as `Except.error` carrying the same error status). -/
def isBranchProtected {α : Type} (r : FetchResult α) : Except (Option Nat) Bool :=
  match r with
  | FetchResult.success _ => Except.ok true
  | FetchResult.failure s => if s = some 404 then Except.ok false else Except.error s

/-- Claim C4: `isBranchProtected` returns `true` whenever the protection
sub-resource fetch succeeds, returns `false` exactly when the fetch fails with
HTTP 404, and re-throws every other failure unchanged. -/
theorem isBranchProtected_spec (α : Type) :
    (∀ b : α, isBranchProtected (FetchResult.success b) = Except.ok true)
  ∧ (∀ r : FetchResult α, isBranchProtected r = Except.ok false ↔ r = FetchResult.failure (some 404))
  ∧ (∀ s : Option Nat, s ≠ some 404 →
      isBranchProtected (FetchResult.failure s : FetchResult α) = Except.error s) := by
  refine ⟨fun b => rfl, ?_, ?_⟩
  · intro r
    cases r with
    | success b => simp [isBranchProtected]
    | failure s =>
      by_cases hs : s = some 404
      · simp [isBranchProtected, hs]
      · simp [isBranchProtected, hs]
  · intro s hs
    simp [isBranchProtected, hs]

/-- Witness for `isBranchProtected_spec`: a 500 failure is re-thrown. -/
theorem isBranchProtected_spec_witness :
    isBranchProtected (FetchResult.failure (some 500) : FetchResult Unit) = Except.error (some 500) :=
  (isBranchProtected_spec Unit).2.2 (some 500) (by decide)

/-- The outcome of the raw `fetch` in `isDependabotEnabled`
(`src/services/githubApi.ts`): `fetch` does not throw on HTTP error statuses,
so a completed request carries its status code; `threw` models a network-level
rejection. -/
inductive HttpAttempt where
  | completed (status : Nat)
  | threw
deriving DecidableEq

/-- `isDependabotEnabled` from `src/services/githubApi.ts`, as a function of
the `fetch` outcome: a completed request yields `status === 204`; the `catch`
branch returns `true` ("assume enabled on error to avoid false positives"). -/
def isDependabotEnabled (r : HttpAttempt) : Bool :=
  match r with
  | HttpAttempt.completed s => s == 204
  | HttpAttempt.threw => true

/-- Claim C10: `isDependabotEnabled` returns `true` exactly when a completed
request has status 204 (404 and every other completed status yield `false`),
and returns `true` whenever the underlying request throws. -/
theorem isDependabotEnabled_spec :
    (∀ s : Nat, isDependabotEnabled (HttpAttempt.completed s) = true ↔ s = 204)
  ∧ isDependabotEnabled (HttpAttempt.completed 404) = false
  ∧ isDependabotEnabled HttpAttempt.threw = true := by
  refine ⟨?_, rfl, rfl⟩
  intro s
  simp [isDependabotEnabled]

/-- A stable comparator-driven sort standing in for JavaScript
`Array.prototype.sort` (which is stable): insertion sort placing each element
before the first later element it does not compare after. -/
def insertBy {α : Type} (cmp : α → α → Int) (x : α) : List α → List α
  | [] => [x]
  | y :: ys => if cmp x y ≤ 0 then x :: y :: ys else y :: insertBy cmp x ys

/-- Stable sort by a JavaScript-style three-way comparator. -/
def sortBy {α : Type} (cmp : α → α → Int) : List α → List α
  | [] => []
  | x :: xs => insertBy cmp x (sortBy cmp xs)

/-- `insertBy` grows the list by one element. -/
theorem length_insertBy {α : Type} (cmp : α → α → Int) (x : α) :
    ∀ (l : List α), (insertBy cmp x l).length = l.length + 1 := by
  intro l
  induction l with
  | nil => rfl
  | cons y ys ih =>
    by_cases h : cmp x y ≤ 0
    · simp [insertBy, h]
    · simp [insertBy, h, ih]

/-- `sortBy` preserves length. -/
theorem length_sortBy {α : Type} (cmp : α → α → Int) :
    ∀ (l : List α), (sortBy cmp l).length = l.length := by
  intro l
  induction l with
  | nil => rfl
  | cons x xs ih => simp [sortBy, length_insertBy, ih]

/-- One row of the security report's repos-with-alerts list (`withAlerts` in
the Security tab and the repo-governance tab): per-severity bucket counts plus
the raw alert count. Presentation-only fields (`url`, `alertsUrl`,
`visibility`) are omitted; the sort comparator reads none of them. -/
structure AlertRecord where
  name : String
  critical : Nat
  high : Nat
  medium : Nat
  low : Nat
  totalAlerts : Nat
deriving DecidableEq

/-- The `withAlerts.sort` comparator shared verbatim by the Security tab and
the repo-governance tab: descending `critical`, then `high`, then `medium`,
then descending `totalAlerts`. The `low` bucket is never consulted. -/
def severityCompare (a b : AlertRecord) : Int :=
  if b.critical ≠ a.critical then (b.critical : Int) - (a.critical : Int)
  else if b.high ≠ a.high then (b.high : Int) - (a.high : Int)
  else if b.medium ≠ a.medium then (b.medium : Int) - (a.medium : Int)
  else (b.totalAlerts : Int) - (a.totalAlerts : Int)

/-- The comparator the spec describes, written from the spec's words for
comparison with `severityCompare`: "descending count at each severity tier in
order (critical, high, medium, low) before falling back to total count". -/
def severityCompareSpec (a b : AlertRecord) : Int :=
  if b.critical ≠ a.critical then (b.critical : Int) - (a.critical : Int)
  else if b.high ≠ a.high then (b.high : Int) - (a.high : Int)
  else if b.medium ≠ a.medium then (b.medium : Int) - (a.medium : Int)
  else if b.low ≠ a.low then (b.low : Int) - (a.low : Int)
  else (b.totalAlerts : Int) - (a.totalAlerts : Int)

/-- Claim C5 (counterexample): the code's comparator does not use the `low`
tier before falling back to the total. On records equal at critical/high/medium
with low counts 5 vs 0 but totals 5 vs 6, the spec's tier order puts the
low-5 record first (negative comparator), while the code orders by total and
puts the low-0 record first (positive comparator); the resulting sorted lists
differ. -/
theorem severityCompare_ignores_low_tier :
    severityCompare (AlertRecord.mk "repo-a" 0 0 0 5 5) (AlertRecord.mk "repo-b" 0 0 0 0 6) > 0
  ∧ severityCompareSpec (AlertRecord.mk "repo-a" 0 0 0 5 5) (AlertRecord.mk "repo-b" 0 0 0 0 6) < 0
  ∧ sortBy severityCompare [AlertRecord.mk "repo-a" 0 0 0 5 5, AlertRecord.mk "repo-b" 0 0 0 0 6]
      ≠ sortBy severityCompareSpec [AlertRecord.mk "repo-a" 0 0 0 5 5, AlertRecord.mk "repo-b" 0 0 0 0 6] := by
  refine ⟨by decide, by decide, by decide⟩

/-- Claim C5 (amended): the comparator sorts by descending count at the tiers
critical, high, medium and then by descending total alert count, never
consulting the `low` tier; it agrees with the spec's tier order whenever every
alert of each record falls into one of the four severity buckets (then
`totalAlerts` equals the bucket sum, making the total tie-break coincide with
the `low` tier). The claim's concrete instance holds: counts
critical2/high0, critical1/high5, critical2/high1 sort to the order
critical2/high1, critical2/high0, critical1/high5. -/
theorem severityCompare_amended :
    (∀ a b : AlertRecord,
        a.totalAlerts = a.critical + a.high + a.medium + a.low →
        b.totalAlerts = b.critical + b.high + b.medium + b.low →
        severityCompare a b = severityCompareSpec a b)
  ∧ sortBy severityCompare
      [AlertRecord.mk "r1" 2 0 0 0 2, AlertRecord.mk "r2" 1 5 0 0 6, AlertRecord.mk "r3" 2 1 0 0 3]
      = [AlertRecord.mk "r3" 2 1 0 0 3, AlertRecord.mk "r1" 2 0 0 0 2, AlertRecord.mk "r2" 1 5 0 0 6] := by
  constructor
  · intro a b ha hb
    simp only [severityCompare, severityCompareSpec]
    split_ifs with h1 h2 h3 h4 <;> omega
  · decide

/-- Witness for `severityCompare_amended`: on two fully-bucketed concrete
records the code comparator and the spec's tier order agree. -/
theorem severityCompare_amended_witness :
    severityCompare (AlertRecord.mk "r1" 2 0 0 0 2) (AlertRecord.mk "r2" 1 5 0 0 6)
      = severityCompareSpec (AlertRecord.mk "r1" 2 0 0 0 2) (AlertRecord.mk "r2" 1 5 0 0 6) :=
  severityCompare_amended.1 (AlertRecord.mk "r1" 2 0 0 0 2) (AlertRecord.mk "r2" 1 5 0 0 6)
    (by decide) (by decide)

/-- One row of the cleanup tab's stale-branch list
(`src/components/CleanupNeeded.tsx`): either a branch-volume warning marker
(`isWarning = true`, carrying `branchCount`) or a detail row carrying
`staleBranchCount`, `totalBranches` and the stale-branch authors. -/
structure StaleRow where
  repoName : String
  repoUrl : String
  isWarning : Bool
  branchCount : Nat
  staleBranchCount : Nat
  totalBranches : Nat
  authors : List String
deriving DecidableEq

/-- The `reposWithStaleBranches.sort` comparator of
`src/components/CleanupNeeded.tsx`: warnings sort before detail rows, warnings
among themselves by descending `branchCount`, detail rows by descending
`staleBranchCount`. -/
def staleCompare (a b : StaleRow) : Int :=
  if a.isWarning && !b.isWarning then -1
  else if !a.isWarning && b.isWarning then 1
  else if a.isWarning && b.isWarning then (b.branchCount : Int) - (a.branchCount : Int)
  else (b.staleBranchCount : Int) - (a.staleBranchCount : Int)

/-- One row of the cleanup tab's archive-candidate list (identity and the
sort key; remaining date fields are presentation-only). -/
structure InactiveRow where
  name : String
  daysInactive : Nat
deriving DecidableEq

/-- One row of the cleanup tab's old-PR list (identity, counts and the sort
key `oldestPR.daysOpen`). -/
structure OldPRRow where
  repoName : String
  oldPRCount : Nat
  totalPRs : Nat
  oldestPRDaysOpen : Nat
deriving DecidableEq

/-- The payload the cleanup tab stores in its state and cache
(`src/components/CleanupNeeded.tsx`, result assembly after the per-repo loop). -/
structure CleanupPayload where
  inactiveRepos : List InactiveRow
  totalInactive : Nat
  staleBranches : List StaleRow
  oldPRs : List OldPRRow
  totalStaleBranchRepos : Nat
  totalOldPRRepos : Nat
  totalOldPRs : Nat
deriving DecidableEq

/-- The result assembly of `fetchData` in `src/components/CleanupNeeded.tsx`:
each classified list is sorted, its length recorded as the total, and the FULL
sorted list — not a truncation — is stored and cached; no display limit is
consulted. -/
def cleanupAssemble (reposWithActivity : List InactiveRow)
    (reposWithStaleBranches : List StaleRow) (reposWithOldPRs : List OldPRRow) :
    CleanupPayload :=
  let sortedInactive := sortBy (fun a b => (b.daysInactive : Int) - (a.daysInactive : Int)) reposWithActivity
  let sortedStale := sortBy staleCompare reposWithStaleBranches
  let sortedOld := sortBy (fun a b => (b.oldestPRDaysOpen : Int) - (a.oldestPRDaysOpen : Int)) reposWithOldPRs
  { inactiveRepos := sortedInactive
    totalInactive := sortedInactive.length
    staleBranches := sortedStale
    oldPRs := sortedOld
    totalStaleBranchRepos := sortedStale.length
    totalOldPRRepos := sortedOld.length
    totalOldPRs := (sortedOld.map (fun r => r.oldPRCount)).sum }

/-- One row of the repo-governance security lists
(`src/components/SecurityGovernanceRepo.jsx`); only identity and visibility
are kept, the comparison never reads further fields. -/
structure SecRow where
  name : String
  visibility : String
deriving DecidableEq

/-- The payload the security-repo tab stores in its state and cache. -/
structure SecurityRepoPayload where
  unprotectedRepos : List SecRow
  noAdminRepos : List SecRow
  totalUnprotected : Nat
  totalNoAdmin : Nat
deriving DecidableEq

/-- The result assembly of `fetchData` in
`src/components/SecurityGovernanceRepo.jsx` (lines 114–122): record each
list's length as the total, then truncate with `slice(0, limit)` for display
and caching. -/
def securityRepoAssemble (unprotected noAdmin : List SecRow)
    (maxUnprotectedRepos maxNoAdminRepos : Nat) : SecurityRepoPayload :=
  { totalUnprotected := unprotected.length
    unprotectedRepos := unprotected.take maxUnprotectedRepos
    totalNoAdmin := noAdmin.length
    noAdminRepos := noAdmin.take maxNoAdminRepos }

/-- Claim C6 (counterexample): the cleanup builder
(`src/components/CleanupNeeded.tsx`) does not truncate: with three matching
stale-branch repositories its result list has length 3, never 2, whatever
display limit is configured — the assembly takes no display limit at all. -/
theorem cleanup_no_truncation :
    ((cleanupAssemble []
        [StaleRow.mk "r1" "u1" false 0 3 4 [], StaleRow.mk "r2" "u2" false 0 2 3 [],
         StaleRow.mk "r3" "u3" false 0 1 2 []] []).staleBranches).length = 3
  ∧ ((cleanupAssemble []
        [StaleRow.mk "r1" "u1" false 0 3 4 [], StaleRow.mk "r2" "u2" false 0 2 3 [],
         StaleRow.mk "r3" "u3" false 0 1 2 []] []).staleBranches).length ≠ 2 := by
  refine ⟨by decide, by decide⟩

/-- Claim C6 (amended): the security-repo builder records each total and
truncates its lists to the configured display limits, both ending up in the
cached payload; the cleanup builder records the totals but stores the full
sorted lists untruncated (its payload's list lengths always equal the input
lengths). -/
theorem report_truncation_amended :
    (∀ (u n : List SecRow) (lu ln : Nat),
        (securityRepoAssemble u n lu ln).totalUnprotected = u.length
      ∧ (securityRepoAssemble u n lu ln).unprotectedRepos = u.take lu
      ∧ (securityRepoAssemble u n lu ln).totalNoAdmin = n.length
      ∧ (securityRepoAssemble u n lu ln).noAdminRepos = n.take ln)
  ∧ (∀ (inact : List InactiveRow) (stale : List StaleRow) (old : List OldPRRow),
        ((cleanupAssemble inact stale old).staleBranches).length = stale.length
      ∧ (cleanupAssemble inact stale old).totalStaleBranchRepos = stale.length
      ∧ ((cleanupAssemble inact stale old).inactiveRepos).length = inact.length
      ∧ ((cleanupAssemble inact stale old).oldPRs).length = old.length) := by
  constructor
  · intro u n lu ln
    exact ⟨rfl, rfl, rfl, rfl⟩
  · intro inact stale old
    refine ⟨?_, ?_, ?_, ?_⟩ <;> simp [cleanupAssemble, length_sortBy]

/-- A repository record as the builders read it: the `archived` and `fork`
flags plus a sample of the other attributes the reports consult, to make
explicit that the active-set rule depends on the flags alone. (`private` is a
keyword, hence `isPrivate`.) -/
structure Repo where
  name : String
  archived : Bool
  fork : Bool
  isPrivate : Bool
  defaultBranch : String
  pushedAt : Nat
deriving DecidableEq

/-- `repos.filter(repo => !repo.archived && !repo.fork)` at
`src/components/CleanupNeeded.tsx:60`. -/
def cleanupActiveRepos (repos : List Repo) : List Repo :=
  repos.filter (fun r => !r.archived && !r.fork)

/-- The same filter at `src/components/SecurityGovernanceRepo.jsx:59`. -/
def securityGovernanceRepoActiveRepos (repos : List Repo) : List Repo :=
  repos.filter (fun r => !r.archived && !r.fork)

/-- The same filter at `src/components/ArchiveCandidates.jsx:54`. -/
def archiveCandidatesActiveRepos (repos : List Repo) : List Repo :=
  repos.filter (fun r => !r.archived && !r.fork)

/-- The same filter in the Security tab's `fetchData`. -/
def securityActiveRepos (repos : List Repo) : List Repo :=
  repos.filter (fun r => !r.archived && !r.fork)

/-- The same filter in the repo-governance tab's `fetchData`. -/
def governanceRepoActiveRepos (repos : List Repo) : List Repo :=
  repos.filter (fun r => !r.archived && !r.fork)

/-- Claim C7: every builder's active-processing set contains exactly the
fetched repositories with `archived = false` and `fork = false`, independent of
every other attribute, and the exclusion rule is literally the same function in
each builder that iterates repositories. -/
theorem activeRepos_spec :
    (∀ (repos : List Repo) (r : Repo),
        r ∈ cleanupActiveRepos repos ↔ r ∈ repos ∧ r.archived = false ∧ r.fork = false)
  ∧ (∀ repos : List Repo,
        cleanupActiveRepos repos = securityGovernanceRepoActiveRepos repos
      ∧ cleanupActiveRepos repos = archiveCandidatesActiveRepos repos
      ∧ cleanupActiveRepos repos = securityActiveRepos repos
      ∧ cleanupActiveRepos repos = governanceRepoActiveRepos repos) := by
  constructor
  · intro repos r
    simp [cleanupActiveRepos, List.mem_filter]
  · intro repos
    exact ⟨rfl, rfl, rfl, rfl⟩

/-- A branch list item (`getRepoBranches` element): only the name is read
before the detail fetch. -/
structure BranchInfo where
  name : String
deriving DecidableEq

/-- The fields of a `getBranchDetails` response the cleanup builder reads:
`commit.commit.author.date`, `commit.author?.login`,
`commit.commit.author.name`. A fetch failure (`null`) or a missing `commit`
is modelled by `Option.none` at the call site. -/
structure BranchDetails where
  commitDate : Int
  authorLogin : Option String
  authorName : String
deriving DecidableEq

/-- The stale-branch section of the per-repository loop body in
`src/components/CleanupNeeded.tsx` (lines 116–164), as a function of the
repository's branch list and of the detail-fetch results. Returns the rows
pushed onto `reposWithStaleBranches` together with the number of
`getBranchDetails` calls issued for this repository. -/
def processStaleBranches (branchWarningThreshold : Nat) (staleBranchCutoff : Int)
    (repoName repoUrl defaultBranch : String) (branches : List BranchInfo)
    (fetchDetails : String → Option BranchDetails) : List StaleRow × Nat :=
  let nonDefaultBranches := branches.filter (fun b => !(b.name == defaultBranch))
  if nonDefaultBranches.length > branchWarningThreshold then
    ([{ repoName := repoName, repoUrl := repoUrl, isWarning := true,
        branchCount := nonDefaultBranches.length, staleBranchCount := 0,
        totalBranches := 0, authors := [] }], 0)
  else
    let allBranchDetails := nonDefaultBranches.map (fun b => fetchDetails b.name)
    let staleBranchCount := allBranchDetails.countP (fun od =>
      match od with
      | some d => decide (d.commitDate < staleBranchCutoff)
      | none => false)
    let authors := allBranchDetails.foldl (fun acc od =>
      match od with
      | some d =>
          if d.commitDate < staleBranchCutoff then
            let ident := match d.authorLogin with
              | some l => if l = "" then d.authorName else l
              | none => d.authorName
            if ident = "" then acc else if ident ∈ acc then acc else acc ++ [ident]
          else acc
      | none => acc) []
    (if staleBranchCount > 0 then
        [{ repoName := repoName, repoUrl := repoUrl, isWarning := false,
           branchCount := 0, staleBranchCount := staleBranchCount,
           totalBranches := nonDefaultBranches.length, authors := authors }]
      else [], allBranchDetails.length)

/-- Claim C8: when a repository's non-default branch count exceeds the
configured `branchCountWarning` threshold, the cleanup builder emits exactly
one warning-marker row and issues zero `getBranchDetails` calls for it;
at or below the threshold it issues exactly one detail fetch per non-default
branch. -/
theorem processStaleBranches_branch_guard (branchWarningThreshold : Nat)
    (staleBranchCutoff : Int) (repoName repoUrl defaultBranch : String)
    (branches : List BranchInfo) (fetchDetails : String → Option BranchDetails) :
    ((branches.filter (fun b => !(b.name == defaultBranch))).length > branchWarningThreshold →
        processStaleBranches branchWarningThreshold staleBranchCutoff repoName repoUrl
            defaultBranch branches fetchDetails
          = ([{ repoName := repoName, repoUrl := repoUrl, isWarning := true,
                branchCount := (branches.filter (fun b => !(b.name == defaultBranch))).length,
                staleBranchCount := 0, totalBranches := 0, authors := [] }], 0))
  ∧ ((branches.filter (fun b => !(b.name == defaultBranch))).length ≤ branchWarningThreshold →
        (processStaleBranches branchWarningThreshold staleBranchCutoff repoName repoUrl
            defaultBranch branches fetchDetails).2
          = (branches.filter (fun b => !(b.name == defaultBranch))).length) := by
  constructor
  · intro h
    simp [processStaleBranches, h]
  · intro h
    have h2 : ¬ (branches.filter (fun b => !(b.name == defaultBranch))).length > branchWarningThreshold :=
      not_lt.mpr h
    simp [processStaleBranches, h2]

/-- Witness for `processStaleBranches_branch_guard`: with non-default branches
`b1`, `b2` and threshold 1 the builder emits the single warning row and zero
fetches; with threshold 5 it issues exactly two detail fetches. -/
theorem processStaleBranches_branch_guard_witness :
    processStaleBranches 1 0 "r" "u" "main"
        [BranchInfo.mk "b1", BranchInfo.mk "b2", BranchInfo.mk "main"] (fun _ => none)
      = ([{ repoName := "r", repoUrl := "u", isWarning := true, branchCount := 2,
            staleBranchCount := 0, totalBranches := 0, authors := [] }], 0)
  ∧ (processStaleBranches 5 0 "r" "u" "main"
        [BranchInfo.mk "b1", BranchInfo.mk "b2", BranchInfo.mk "main"] (fun _ => none)).2 = 2 :=
  ⟨(processStaleBranches_branch_guard 1 0 "r" "u" "main"
      [BranchInfo.mk "b1", BranchInfo.mk "b2", BranchInfo.mk "main"] (fun _ => none)).1 (by decide),
   (processStaleBranches_branch_guard 5 0 "r" "u" "main"
      [BranchInfo.mk "b1", BranchInfo.mk "b2", BranchInfo.mk "main"] (fun _ => none)).2 (by decide)⟩
